import Mathlib

/-!
Verification development for the NDA validator repository.

The repository ships the React frontend (DocumentUpload, App) together with
deployment scaffolding; the clause-analysis, pattern-learning and
document-generation engine is described by the specification but its code is
not part of the visible tree.  The engine is therefore modelled here from the
specification text (each such definition carries a doc comment starting with
"Modelled from the spec:"), while the frontend upload handler is embedded
directly from the source.
-/

namespace NDAV

/-! ## Frontend upload component (embedded from the source `onDrop` handler) -/

/-- State of the DocumentUpload component that the `onDrop` handler touches:
`uploading`, `error`, `success`, `uploadedFilename`, `documentStatus`
(the last one modelled by its raw payload string). -/
structure UploadState where
  uploading : Bool
  uploadError : Option String
  success : Option String
  uploadedFilename : Option String
  documentStatus : Option String
deriving DecidableEq, Repr

/-- Initial component state: all message and result fields are null. -/
def initialUploadState : UploadState :=
  { uploading := false, uploadError := none, success := none,
    uploadedFilename := none, documentStatus := none }

/-- Backend request the handler can issue. -/
inductive Request where
  | upload (filename : String)
deriving DecidableEq, Repr

/-- The filename test `file.name.match(/\.(doc|docx)$/)` of the source: the
regular expression is anchored at the end of the string, so it holds exactly
when the name ends in ".doc" or ".docx" (stated here as a suffix test on the
underlying character sequence). -/
def isWordFilename (name : String) : Bool :=
  List.isSuffixOf ".doc".data name.data || List.isSuffixOf ".docx".data name.data

/-- The synchronous part of the `onDrop` handler, up to the point where the
upload request is handed to axios: take the first accepted file; with no file
return unchanged; with a non-Word filename set the error message and return
without issuing a request; otherwise clear the message and result fields, set
`uploading`, and issue the upload request. -/
def onDrop (st : UploadState) (acceptedFiles : List String) :
    UploadState × List Request :=
  match acceptedFiles.head? with
  | none => (st, [])
  | some name =>
    if isWordFilename name then
      ({ st with uploading := true, uploadError := none, success := none,
                 uploadedFilename := none, documentStatus := none },
       [Request.upload name])
    else
      ({ st with uploadError := some "Please upload a Word document (.doc or .docx)" },
       [])

/-! ## Core data model

Modelled from the spec: the backend engine (sections 3 and 4 of the spec) is
not part of the visible source tree, so its data model and operations are
translated from the specification text. -/

/-- Modelled from the spec: the closed clause category enumeration. -/
inductive Category where
  | confidentiality | duration | scope | liability | termination
  | governingLaw | other
deriving DecidableEq, Repr

/-- Modelled from the spec: risk levels. -/
inductive Risk where
  | low | medium | high
deriving DecidableEq, Repr

/-- Modelled from the spec: the tri-state per-Clause decision. -/
inductive Decision where
  | pending | accepted | rejected
deriving DecidableEq, Repr

/-- Modelled from the spec: the error taxonomy of section 7. -/
inductive Err where
  | parseError | embeddingError | patternMatchError | generationError
  | invalidStateError | trainingAlignmentError | timeoutError
deriving DecidableEq, Repr

/-- Modelled from the spec: a formatting run, the unit of run-level formatting
metadata (a span of text with its bold/italic/underline flags and style). -/
structure FormatRun where
  text : String
  bold : Bool
  italic : Bool
  underline : Bool
  style : String
deriving DecidableEq, Repr

/-- Modelled from the spec: a paragraph as an ordered list of formatting runs. -/
structure Paragraph where
  runs : List FormatRun
deriving DecidableEq, Repr

/-- Raw text of a paragraph: the concatenation of its run texts. -/
def Paragraph.text (p : Paragraph) : String :=
  String.join (p.runs.map FormatRun.text)

/-- Modelled from the spec: a semantic embedding vector, with exact rational
coordinates so that threshold comparisons are exact. -/
abbrev Embedding := List ℚ

/-- Modelled from the spec: a learned Pattern record of the PatternLibrary. -/
structure Pattern where
  pid : Nat
  category : Category
  centroid : Embedding
  correction : String
  supportCount : Nat
  updatedAt : Nat
deriving DecidableEq, Repr

/-- Modelled from the spec: the versioned PatternLibrary; the per-category
mapping of the spec is realized by filtering the record list on category. -/
structure PatternLibrary where
  version : Nat
  nextId : Nat
  patterns : List Pattern
deriving DecidableEq, Repr

/-- Modelled from the spec: a Suggestion attached to a clause. -/
structure Suggestion where
  patternId : Nat
  similarity : ℚ
  text : String
  confidence : ℚ
deriving DecidableEq, Repr

/-! ## PatternMatcher -/

/-- Modelled from the spec: matcher policy. `sim` is the cosine-similarity
kernel on embeddings and `conf` the confidence as a function of
support_count; both are numeric kernels the spec leaves to configuration.
Defaults: similarity threshold T = 0.75, top K = 3, and the high-risk
similarity bound used by the risk rule table. -/
structure MatchConfig where
  sim : Embedding → Embedding → ℚ
  conf : Nat → ℚ
  simThreshold : ℚ := 3 / 4
  topK : Nat := 3
  highThreshold : ℚ := 9 / 10

/-- Ranking score of a pattern for a clause embedding:
similarity times confidence of the support count. -/
def score (cfg : MatchConfig) (e : Embedding) (p : Pattern) : ℚ :=
  cfg.sim p.centroid e * cfg.conf p.supportCount

/-- Modelled from the spec: the ranking order on patterns, as a proposition:
higher score first, ties broken by higher support_count, then by most recent
update. -/
def RankGE (cfg : MatchConfig) (e : Embedding) (p q : Pattern) : Prop :=
  score cfg e q < score cfg e p ∨
    (score cfg e p = score cfg e q ∧
      (q.supportCount < p.supportCount ∨
        (p.supportCount = q.supportCount ∧ q.updatedAt ≤ p.updatedAt)))

instance (cfg : MatchConfig) (e : Embedding) (p q : Pattern) :
    Decidable (RankGE cfg e p q) := by
  unfold RankGE; infer_instance

/-- Boolean form of the ranking order, used by the sort. -/
def rankLE (cfg : MatchConfig) (e : Embedding) (p q : Pattern) : Bool :=
  decide (RankGE cfg e p q)

/-- Modelled from the spec: the same-category candidates at or above the
similarity threshold T. -/
def matchCandidates (cfg : MatchConfig) (lib : PatternLibrary)
    (cat : Category) (e : Embedding) : List Pattern :=
  lib.patterns.filter
    (fun p => p.category == cat && decide (cfg.simThreshold ≤ cfg.sim p.centroid e))

/-- Modelled from the spec: the candidates ranked by similarity times
confidence with the stated tie-breaks. -/
def matchRanked (cfg : MatchConfig) (lib : PatternLibrary)
    (cat : Category) (e : Embedding) : List Pattern :=
  (matchCandidates cfg lib cat e).mergeSort (rankLE cfg e)

/-- Suggestion built from a matched pattern; the similarity is reported as
computed, before any further filtering. -/
def sugOf (cfg : MatchConfig) (e : Embedding) (p : Pattern) : Suggestion :=
  { patternId := p.pid, similarity := cfg.sim p.centroid e,
    text := p.correction, confidence := cfg.conf p.supportCount }

/-- Modelled from the spec: the matcher keeps the top K ranked candidates as
Suggestions. -/
def matchSuggestions (cfg : MatchConfig) (lib : PatternLibrary)
    (cat : Category) (e : Embedding) : List Suggestion :=
  ((matchRanked cfg lib cat e).take cfg.topK).map (sugOf cfg e)

/-! ## ClauseSegmenter and DocumentAnalysisPipeline -/

/-- Modelled from the spec: the classifier configuration — the external
embedding model (which can fail with an EmbeddingError on a paragraph) and
the category classifier by nearest category centroid. -/
structure ClassifierCfg where
  embed : String → Except Err Embedding
  classify : Embedding → Category

/-- Per-paragraph classification record: stable index, the paragraph, its
category, and its embedding when the embedding step succeeded. A failed
embedding is absorbed: the paragraph is assigned category `other` and carries
no embedding. -/
structure ParaClass where
  idx : Nat
  para : Paragraph
  cat : Category
  emb : Option Embedding
deriving DecidableEq, Repr

/-- The degraded classification record of a paragraph whose embedding step
failed: category `other` and no embedding. -/
def degradedPC (i : Nat) (p : Paragraph) : ParaClass :=
  { idx := i, para := p, cat := Category.other, emb := none }

/-- Modelled from the spec: classify one paragraph; an EmbeddingError is
absorbed with the degraded classification (category `other`, no embedding). -/
def classifyParagraph (cc : ClassifierCfg) (i : Nat) (p : Paragraph) : ParaClass :=
  match cc.embed p.text with
  | Except.error _ => { idx := i, para := p, cat := Category.other, emb := none }
  | Except.ok e => { idx := i, para := p, cat := cc.classify e, emb := some e }

/-- Modelled from the spec: merge adjacent paragraphs into clause groups.
Adjacent paragraphs sharing a category are merged; a degraded paragraph (no
embedding) is only grouped with equally degraded neighbours so that its
low-risk classification survives. -/
def groupClauses : List ParaClass → List (List ParaClass)
  | [] => []
  | pc :: rest =>
    match groupClauses rest with
    | [] => [[pc]]
    | g :: gs =>
      match g with
      | [] => [pc] :: gs
      | q :: _ =>
        if pc.cat = q.cat ∧ pc.emb.isNone = q.emb.isNone then
          (pc :: g) :: gs
        else
          [pc] :: g :: gs

/-- Modelled from the spec: a Clause as produced by analysis — its contiguous
paragraphs, category, clause embedding, risk, ranked suggestions and
decision. -/
structure AClause where
  paras : List ParaClass
  category : Category
  emb : Option Embedding
  risk : Risk
  suggestions : List Suggestion
  decision : Decision
deriving Repr

/-- Modelled from the spec: the deterministic risk rule table — no match
yields low risk, a best match at or above the high bound yields high risk,
any other match yields medium. -/
def assessRisk (cfg : MatchConfig) (sugs : List Suggestion) : Risk :=
  match sugs with
  | [] => Risk.low
  | s :: _ => if cfg.highThreshold ≤ s.similarity then Risk.high else Risk.medium

/-- Modelled from the spec: build the Clause for one merged group: category
and embedding come from its first paragraph, suggestions from the matcher
(none when the group is degraded), risk from the rule table, decision
pending. -/
def clauseOfGroup (cfg : MatchConfig) (lib : PatternLibrary)
    (g : List ParaClass) : AClause :=
  let cat := match g with | [] => Category.other | q :: _ => q.cat
  let emb := match g with | [] => none | q :: _ => q.emb
  let sugs := match emb with
    | none => []
    | some e => matchSuggestions cfg lib cat e
  { paras := g, category := cat, emb := emb,
    risk := assessRisk cfg sugs, suggestions := sugs, decision := Decision.pending }

/-- Modelled from the spec: the immutable output of one analysis run. -/
structure AnalysisResult where
  clauses : List AClause
  libVersion : Nat
deriving Repr

/-- Raw document bytes. -/
abbrev ByteSeq := List Nat

/-- Modelled from the spec: the `analyze` entry point — extract, classify
each paragraph, merge into clauses, match and assess. `runCtx` stands for
the incidental execution context of one run (worker-pool scheduling); the
spec requires it to have no influence on the result. -/
def analyze (extractF : ByteSeq → Except Err (List Paragraph))
    (cc : ClassifierCfg) (cfg : MatchConfig) (lib : PatternLibrary)
    (runCtx : Nat) (bytes : ByteSeq) : Except Err AnalysisResult :=
  match extractF bytes with
  | Except.error err => Except.error err
  | Except.ok paras =>
    let pcs := paras.enum.map (fun ip => classifyParagraph cc ip.1 ip.2)
    let groups := groupClauses pcs
    Except.ok { clauses := groups.map (clauseOfGroup cfg lib),
                libVersion := lib.version }

/-! ## RedlineGenerator and CleanGenerator -/

/-- Modelled from the spec: tracked-change marking of a run. -/
inductive Mark where
  | normal | inserted | deleted
deriving DecidableEq, Repr

/-- A run of the generated artifact together with its tracked-change mark. -/
structure TrackedRun where
  run : FormatRun
  mark : Mark
deriving DecidableEq, Repr

/-- A paragraph of a generated artifact. -/
structure TrackedParagraph where
  truns : List TrackedRun
deriving DecidableEq, Repr

/-- Text of a generated paragraph. -/
def TrackedParagraph.text (tp : TrackedParagraph) : String :=
  String.join (tp.truns.map (fun tr => tr.run.text))

/-- Text of a generated artifact: the concatenation of its paragraph texts. -/
def artifactText (tps : List TrackedParagraph) : String :=
  String.join (tps.map TrackedParagraph.text)

/-- A source paragraph reproduced without any tracked-change markup: every
run is carried over unchanged with the normal mark. -/
def plainPara (p : Paragraph) : TrackedParagraph :=
  { truns := p.runs.map (fun r => { run := r, mark := Mark.normal }) }

/-- A clause is edited by the redline exactly when it carries a suggestion
whose decision is pending or accepted. -/
def AClause.edited (c : AClause) : Bool :=
  !c.suggestions.isEmpty && !(c.decision == Decision.rejected)

/-- The run holding a suggested replacement text. -/
def suggestionRun (s : Suggestion) : FormatRun :=
  { text := s.text, bold := false, italic := false, underline := false,
    style := "" }

/-- A source paragraph whose runs are all marked deleted. -/
def delPara (p : Paragraph) : TrackedParagraph :=
  { truns := p.runs.map (fun r => { run := r, mark := Mark.deleted }) }

/-- The first paragraph of an edited clause in the redline: the original
runs marked deleted followed by the inserted suggestion text. -/
def editedFirstPara (p : Paragraph) (s : Suggestion) : TrackedParagraph :=
  { truns := p.runs.map (fun r => { run := r, mark := Mark.deleted })
      ++ [{ run := suggestionRun s, mark := Mark.inserted }] }

/-- Modelled from the spec: the redline block of one clause. An edited clause
has its original runs marked deleted and the suggested text inserted at the
position of its first paragraph; all other clauses are reproduced without
markup. -/
def redlineClause (c : AClause) : List TrackedParagraph :=
  if c.edited then
    match c.suggestions.head? with
    | none => c.paras.map (fun pc => plainPara pc.para)
    | some s =>
      match c.paras with
      | [] => []
      | pc0 :: rest =>
        editedFirstPara pc0.para s :: rest.map (fun pc => delPara pc.para)
  else
    c.paras.map (fun pc => plainPara pc.para)

/-- Modelled from the spec: the redline artifact — the concatenation of the
per-clause blocks in document order. -/
def generateRedlineParas (r : AnalysisResult) : List TrackedParagraph :=
  (r.clauses.map redlineClause).flatten

/-- Modelled from the spec: the Document lifecycle state. -/
inductive DocState where
  | ingested | analyzed | redlineReady | cleanReady | errored
deriving DecidableEq, Repr

/-- A state at or beyond RedlineReady. -/
def DocState.atLeastRedlineReady : DocState → Bool
  | DocState.redlineReady => true
  | DocState.cleanReady => true
  | _ => false

/-- Modelled from the spec: a Document with its lifecycle state and the
artifacts produced so far. -/
structure Document where
  paras : List Paragraph
  state : DocState
  analysis : Option AnalysisResult
  redline : Option (List TrackedParagraph)
  clean : Option (List TrackedParagraph)

/-- Resolution of one tracked run of a redlined clause under an
accept/reject decision: normal runs are kept; inserted runs survive only an
accept, deleted runs only a reject. -/
def cleanRun (accept : Bool) (tr : TrackedRun) : Option FormatRun :=
  match tr.mark with
  | Mark.normal => some tr.run
  | Mark.inserted => if accept then some tr.run else none
  | Mark.deleted => if accept then none else some tr.run

/-- Resolution of one redlined paragraph: every surviving run is emitted
markup-free. -/
def cleanPara (accept : Bool) (tp : TrackedParagraph) : TrackedParagraph :=
  { truns := (tp.truns.filterMap (cleanRun accept)).map
      (fun r => { run := r, mark := Mark.normal }) }

/-- Modelled from the spec: the clean block of one clause — the redline block
of the clause resolved under the decision supplied for it. -/
def cleanClause (dec : Decision) (c : AClause) : List TrackedParagraph :=
  (redlineClause c).map (cleanPara (dec != Decision.rejected))

/-- Modelled from the spec: the clean artifact — every clause block of the
redlined document resolved under the caller-supplied decision set (indexed by
clause position). -/
def generateCleanParas (r : AnalysisResult) (decisions : Nat → Decision) :
    List TrackedParagraph :=
  ((r.clauses.enum).map (fun kc => cleanClause (decisions kc.1) kc.2)).flatten

/-- Modelled from the spec: `generate_clean`. A Document whose state is not
at least RedlineReady is rejected with InvalidStateError and nothing is
produced; otherwise the decisions are applied to the redlined document and
the state advances to CleanReady. A RedlineReady document lacking its
analysis or redline artifact is an internal-consistency fault. -/
def generateClean (doc : Document) (decisions : Nat → Decision) :
    Except Err (List TrackedParagraph × Document) :=
  if doc.state.atLeastRedlineReady then
    match doc.analysis, doc.redline with
    | some r, some _ =>
      let out := generateCleanParas r decisions
      Except.ok (out, { doc with state := DocState.cleanReady, clean := some out })
    | _, _ => Except.error Err.generationError
  else
    Except.error Err.invalidStateError

/-! ## TrainingPipeline -/

/-- Modelled from the spec: training policy — the similarity kernel on
embeddings and the merge threshold (default 0.85). -/
structure TrainCfg where
  sim : Embedding → Embedding → ℚ
  mergeThreshold : ℚ := 17 / 20

/-- Modelled from the spec: a TrainingExample derived from one aligned
paragraph pair, categorized on the original-side text. -/
structure TrainingExample where
  original : String
  corrected : String
  category : Category
  emb : Embedding
deriving DecidableEq, Repr

/-- Coordinatewise sum of two embeddings. -/
def vsum (a b : Embedding) : Embedding :=
  List.zipWith (· + ·) a b

/-- Embedding divided coordinatewise by a natural number. -/
def vdiv (v : Embedding) (n : Nat) : Embedding :=
  v.map (fun x => x / (n : ℚ))

/-- Modelled from the spec: the running weighted average — a centroid
carrying weight n moved towards a new embedding of weight one. -/
def runningAvg (c : Embedding) (n : Nat) (e : Embedding) : Embedding :=
  List.zipWith (fun ci ei => (ci * (n : ℚ) + ei) / ((n : ℚ) + 1)) c e

/-- Modelled from the spec: reinforce a pattern with one example embedding —
centroid updated to the running weighted average, support_count incremented,
timestamp refreshed. -/
def reinforce (p : Pattern) (e : Embedding) (now : Nat) : Pattern :=
  { p with centroid := runningAvg p.centroid p.supportCount e,
           supportCount := p.supportCount + 1,
           updatedAt := now }

/-- Modelled from the spec: a fresh pattern created from one training
example, with support_count 1. -/
def freshPattern (newId : Nat) (ex : TrainingExample) (now : Nat) : Pattern :=
  { pid := newId, category := ex.category, centroid := ex.emb,
    correction := ex.corrected, supportCount := 1, updatedAt := now }

/-- The first same-category pattern whose centroid similarity to the example
reaches the merge threshold, if any. -/
def mergeCandidate (tc : TrainCfg) (lib : PatternLibrary)
    (ex : TrainingExample) : Option Pattern :=
  lib.patterns.find?
    (fun p => p.category == ex.category &&
      decide (tc.mergeThreshold ≤ tc.sim p.centroid ex.emb))

/-- Modelled from the spec: ingest one TrainingExample — reinforce the
matching pattern when one reaches the merge threshold, otherwise create a
fresh pattern with support_count 1. -/
def ingestExample (tc : TrainCfg) (now : Nat) (lib : PatternLibrary)
    (ex : TrainingExample) : PatternLibrary :=
  match mergeCandidate tc lib ex with
  | some q =>
    let updated := lib.patterns.map
      (fun p => if p.pid = q.pid then reinforce p ex.emb now else p)
    { lib with patterns := updated }
  | none =>
    { lib with nextId := lib.nextId + 1,
               patterns := lib.patterns ++ [freshPattern lib.nextId ex now] }

/-- Modelled from the spec: ingest a batch of TrainingExamples in order. -/
def ingestBatch (tc : TrainCfg) (now : Nat) (lib : PatternLibrary)
    (exs : List TrainingExample) : PatternLibrary :=
  exs.foldl (fun l ex => ingestExample tc now l ex) lib

/-- Repeated reinforcement of a single pattern by a list of example
embeddings, used to trace the centroid across a reinforcement history. -/
def reinforceAll (p : Pattern) (es : List Embedding) (now : Nat) : Pattern :=
  es.foldl (fun q e => reinforce q e now) p

/-- Modelled from the spec: the alignment pass that pairs every original
paragraph with a textually identical corrected paragraph wherever one is
available, regardless of position — this is what makes the alignment
tolerant of reorderings.  Returns the identical pairs together with the
unmatched leftovers of both sides. -/
def matchExact : List String → List String →
    List (String × String) × List String × List String
  | [], cs => ([], [], cs)
  | o :: os, cs =>
    if o ∈ cs then
      let r := matchExact os (cs.erase o)
      ((o, o) :: r.1, r.2.1, r.2.2)
    else
      let r := matchExact os cs
      (r.1, o :: r.2.1, r.2.2)

/-- Modelled from the spec: the LCS-style alignment of the remaining
paragraphs on text similarity, tolerant of insertions and deletions: a pair
at or above the alignment threshold is matched, otherwise the branch
(skipping either side) keeping more matches wins; unmatched paragraphs are
ignored. -/
def alignSimilar (tsim : String → String → ℚ) (thr : ℚ) :
    List String → List String → List (String × String)
  | [], _ => []
  | _ :: _, [] => []
  | o :: os, c :: cs =>
    if thr ≤ tsim o c then
      (o, c) :: alignSimilar tsim thr os cs
    else
      let skipC := alignSimilar tsim thr (o :: os) cs
      let skipO := alignSimilar tsim thr os (c :: cs)
      if skipC.length < skipO.length then skipO else skipC
termination_by os cs => os.length + cs.length
decreasing_by all_goals simp_arith

/-- Modelled from the spec: the full alignment of a training pair — exact
matches first (tolerating reorderings), then LCS-style similarity alignment
of the leftovers. -/
def alignPair (tsim : String → String → ℚ) (thr : ℚ)
    (os cs : List String) : List (String × String) :=
  let r := matchExact os cs
  r.1 ++ alignSimilar tsim thr r.2.1 r.2.2

/-- Modelled from the spec: every aligned pair with differing text becomes a
TrainingExample, categorized via the analysis-time classifier applied to the
original-side text; pairs whose original side the embedding step cannot
process are skipped. -/
def extractExamples (cc : ClassifierCfg) (tsim : String → String → ℚ)
    (thr : ℚ) (os cs : List String) : List TrainingExample :=
  (alignPair tsim thr os cs).filterMap
    (fun pr =>
      if pr.1 = pr.2 then none
      else
        match cc.embed pr.1 with
        | Except.error _ => none
        | Except.ok e =>
          some { original := pr.1, corrected := pr.2,
                 category := cc.classify e, emb := e })

/-! ## Concrete fixtures used by witness theorems -/

/-- A fixture classifier: embedding fails exactly on empty text, every
embedded paragraph is classified as a duration clause. -/
def ccW : ClassifierCfg :=
  { embed := fun s => if s = "" then Except.error Err.embeddingError
                      else Except.ok [1],
    classify := fun _ => Category.duration }

/-- A fixture matcher configuration with a constant similarity kernel; the
thresholds are set to division-free rationals so that concrete runs reduce
inside the kernel. -/
def cfgW : MatchConfig :=
  { sim := fun _ _ => 1, conf := fun _ => 1, simThreshold := 1,
    topK := 3, highThreshold := 1 }

/-- A fixture training configuration with a constant similarity kernel and a
division-free merge threshold. -/
def tcW : TrainCfg :=
  { sim := fun _ _ => 1, mergeThreshold := 1 }

/-- A fixture pattern. -/
def patW : Pattern :=
  { pid := 1, category := Category.duration, centroid := [1],
    correction := "for a period of 2 years from the Effective Date",
    supportCount := 2, updatedAt := 0 }

/-- A fixture library holding the one fixture pattern. -/
def libW : PatternLibrary :=
  { version := 7, nextId := 2, patterns := [patW] }

/-- A fixture training example. -/
def exW : TrainingExample :=
  { original := "This Agreement shall remain in effect indefinitely.",
    corrected := "for a period of 2 years from the Effective Date",
    category := Category.duration, emb := [3] }

/-- A fixture paragraph with no runs, whose text is empty so that the
fixture classifier fails to embed it. -/
def pEmptyW : Paragraph :=
  { runs := [] }

/-- A fixture paragraph. -/
def paraW : Paragraph :=
  { runs := [{ text := "This Agreement shall remain in effect indefinitely.",
               bold := false, italic := false, underline := false,
               style := "Normal" }] }

/-- A second fixture paragraph, left untouched by the fixture analysis. -/
def paraW2 : Paragraph :=
  { runs := [{ text := "Signatures follow.", bold := true, italic := false,
               underline := false, style := "Normal" }] }

/-- A fixture suggestion. -/
def sugW : Suggestion :=
  { patternId := 1, similarity := 1,
    text := "for a period of 2 years from the Effective Date",
    confidence := 1 }

/-- A fixture analyzed clause carrying the fixture suggestion. -/
def clauseW : AClause :=
  { paras := [{ idx := 0, para := paraW, cat := Category.duration,
                emb := some [1] }],
    category := Category.duration, emb := some [1], risk := Risk.high,
    suggestions := [sugW], decision := Decision.pending }

/-- A fixture analysis result. -/
def resW : AnalysisResult :=
  { clauses := [clauseW], libVersion := 7 }

/-- A fixture two-category classifier: the signature paragraph embeds to
[2] and is classified `other`; every other paragraph embeds to [1] and is
classified as a duration clause. -/
def ccW2 : ClassifierCfg :=
  { embed := fun s =>
      Except.ok (if s = "Signatures follow." then [2] else [1]),
    classify := fun e =>
      if e = [2] then Category.other else Category.duration }

/-- The fixture clause produced for the untouched signature paragraph. -/
def clause1W : AClause :=
  { paras := [{ idx := 1, para := paraW2, cat := Category.other,
                emb := some [2] }],
    category := Category.other, emb := some [2], risk := Risk.low,
    suggestions := [], decision := Decision.pending }

/-- The fixture analysis of the two-paragraph document: the duration clause
carries the fixture suggestion, the signature clause is untouched. -/
def resW2 : AnalysisResult :=
  { clauses := [clauseW, clause1W], libVersion := 7 }

/-- A fixture Document that has reached RedlineReady. -/
def docReadyW : Document :=
  { paras := [paraW], state := DocState.redlineReady,
    analysis := some resW, redline := some (generateRedlineParas resW),
    clean := none }

/-- A fixture Document still in the Analyzed state. -/
def docNotReadyW : Document :=
  { paras := [paraW], state := DocState.analyzed, analysis := some resW,
    redline := none, clean := none }

end NDAV

namespace NDAV

/-! ## Claim theorems -/

/-- C10: a dropped file whose name does not end in ".doc" or ".docx" makes
`onDrop` set the error message and return before issuing any upload request,
so no request is emitted and the uploaded-filename and document-status state
stay null. -/
theorem c10_non_word_file_rejected_before_upload
    (files : List String) (name : String)
    (hhead : files.head? = some name)
    (hname : isWordFilename name = false) :
    onDrop initialUploadState files =
      ({ initialUploadState with
           uploadError := some "Please upload a Word document (.doc or .docx)" },
       []) := by
  simp [onDrop, hhead, hname]

/-- Witness for C10 at the concrete filename "nda.pdf". -/
theorem c10_witness :
    onDrop initialUploadState ["nda.pdf"] =
      ({ initialUploadState with
           uploadError := some "Please upload a Word document (.doc or .docx)" },
       []) :=
  c10_non_word_file_rejected_before_upload ["nda.pdf"] "nda.pdf" rfl (by decide)

/-- C2: `analyze` is deterministic — with the extractor, classifier and
matcher configuration and the PatternLibrary fixed, two runs on the same
bytes under arbitrary execution contexts produce equal AnalysisResults. -/
theorem c2_analyze_deterministic
    (extractF : ByteSeq → Except Err (List Paragraph)) (cc : ClassifierCfg)
    (cfg : MatchConfig) (lib : PatternLibrary) (ctx1 ctx2 : Nat)
    (bytes : ByteSeq) :
    analyze extractF cc cfg lib ctx1 bytes
      = analyze extractF cc cfg lib ctx2 bytes := rfl

/-- C5: `generate_clean` on a Document not yet RedlineReady fails with
InvalidStateError (so no artifact is produced and, the function being pure,
the Document is untouched), and it can succeed only when the state is
RedlineReady or later. -/
theorem c5_generate_clean_state_gate (doc : Document)
    (decisions : Nat → Decision) :
    (doc.state.atLeastRedlineReady = false →
      generateClean doc decisions = Except.error Err.invalidStateError) ∧
    (∀ out, generateClean doc decisions = Except.ok out →
      doc.state.atLeastRedlineReady = true) := by
  constructor
  · intro h
    simp [generateClean, h]
  · intro out h
    cases hx : doc.state.atLeastRedlineReady with
    | true => rfl
    | false => simp [generateClean, hx] at h

/-- Witness for C5 at a fixture Document still in the Analyzed state. -/
theorem c5_witness :
    generateClean docNotReadyW (fun _ => Decision.accepted)
      = Except.error Err.invalidStateError :=
  (c5_generate_clean_state_gate docNotReadyW (fun _ => Decision.accepted)).1 rfl

/-! ### String concatenation helpers -/

/-- Fold of string append with a seed equals the seed appended to the fold
from the empty string. -/
theorem strFoldl_append (l : List String) :
    ∀ a : String, l.foldl (· ++ ·) a = a ++ l.foldl (· ++ ·) "" := by
  induction l with
  | nil => intro a; simp
  | cons b l ih =>
    intro a
    rw [List.foldl_cons, List.foldl_cons, ih (a ++ b), ih ("" ++ b),
      String.empty_append, String.append_assoc]

/-- Join of the empty list. -/
theorem strJoin_nil : String.join [] = "" := rfl

/-- Join of a cons. -/
theorem strJoin_cons (a : String) (l : List String) :
    String.join (a :: l) = a ++ String.join l := by
  show (a :: l).foldl (· ++ ·) "" = a ++ l.foldl (· ++ ·) ""
  rw [List.foldl_cons, String.empty_append, strFoldl_append]

/-- Join of a list of empty strings. -/
theorem strJoin_empties (l : List String) (h : ∀ x ∈ l, x = "") :
    String.join l = "" := by
  induction l with
  | nil => rfl
  | cons a l ih =>
    rw [strJoin_cons, h a (List.mem_cons_self a l),
      ih (fun x hx => h x (List.mem_cons_of_mem a hx)), String.empty_append]

/-! ### Clean generation lemmas -/

/-- Every run surviving the resolution of one redlined paragraph is emitted
with the normal mark. -/
theorem cleanPara_marks (b : Bool) (tp : TrackedParagraph) :
    ∀ tr ∈ (cleanPara b tp).truns, tr.mark = Mark.normal := by
  intro tr htr
  simp only [cleanPara, List.mem_map] at htr
  obtain ⟨r, _, rfl⟩ := htr
  rfl

/-- No paragraph of a clean artifact carries a tracked-change mark. -/
theorem generateCleanParas_marks (r : AnalysisResult) (decs : Nat → Decision) :
    ∀ tp ∈ generateCleanParas r decs, ∀ tr ∈ tp.truns,
      tr.mark = Mark.normal := by
  intro tp htp
  simp only [generateCleanParas, List.mem_flatten, List.mem_map] at htp
  obtain ⟨block, ⟨kc, hkc, rfl⟩, htp⟩ := htp
  simp only [cleanClause, List.mem_map] at htp
  obtain ⟨tp0, _, rfl⟩ := htp
  exact cleanPara_marks _ tp0

/-- Accepting a clause that carries a suggestion replaces the original
clause text by the suggestion text in the clean block. -/
theorem cleanClause_accept_text (c : AClause) (s : Suggestion)
    (hs : c.suggestions.head? = some s) (hd : c.decision ≠ Decision.rejected)
    (hp : c.paras ≠ []) :
    artifactText (cleanClause Decision.accepted c) = s.text := by
  have hne : c.suggestions ≠ [] := by
    intro hnil
    rw [hnil] at hs
    simp at hs
  have hedit : c.edited = true := by
    cases hsl : c.suggestions with
    | nil => exact absurd hsl hne
    | cons a l =>
      cases hdd : c.decision with
      | rejected => exact absurd hdd hd
      | pending => simp [AClause.edited, hsl, hdd]
      | accepted => simp [AClause.edited, hsl, hdd]
  cases hcp : c.paras with
  | nil => exact absurd hcp hp
  | cons pc0 rest =>
    have hrl : redlineClause c
        = editedFirstPara pc0.para s :: rest.map (fun pc => delPara pc.para) := by
      simp [redlineClause, hedit, hs, hcp]
    have hacc : (Decision.accepted != Decision.rejected) = true := rfl
    rw [cleanClause, hrl, hacc, List.map_cons]
    have h1 : cleanPara true (editedFirstPara pc0.para s)
        = { truns := [{ run := suggestionRun s, mark := Mark.normal }] } := by
      simp [cleanPara, editedFirstPara, List.filterMap_append,
        List.filterMap_map, Function.comp, cleanRun]
    have h2 : ∀ p : Paragraph, cleanPara true (delPara p) = { truns := [] } := by
      intro p
      simp [cleanPara, delPara, List.filterMap_map, Function.comp, cleanRun]
    rw [h1, artifactText, List.map_cons, strJoin_cons]
    have htx : TrackedParagraph.text
        { truns := [{ run := suggestionRun s, mark := Mark.normal }] } = s.text := by
      simp [TrackedParagraph.text, suggestionRun, strJoin_cons, strJoin_nil]
    rw [htx]
    suffices hsuf : String.join (List.map TrackedParagraph.text
        (List.map (cleanPara true)
          (List.map (fun pc => delPara pc.para) rest))) = "" by
      rw [hsuf, String.append_empty]
    apply strJoin_empties
    intro x hx
    simp only [List.map_map, List.mem_map, Function.comp] at hx
    obtain ⟨pc, _, rfl⟩ := hx
    rw [h2 pc.para]
    rfl

/-- C6: on a redline-ready Document, `generate_clean` with every clause
accepted succeeds, the produced artifact contains zero tracked-change
markers, and each clause carrying a suggestion has its original text
replaced by the accepted suggestion text in its clean block. -/
theorem c6_all_accept_clean (doc : Document) (r : AnalysisResult)
    (rl : List TrackedParagraph)
    (hst : doc.state = DocState.redlineReady)
    (han : doc.analysis = some r) (hrl : doc.redline = some rl) :
    generateClean doc (fun _ => Decision.accepted)
        = Except.ok (generateCleanParas r (fun _ => Decision.accepted),
            { doc with state := DocState.cleanReady,
                       clean := some (generateCleanParas r (fun _ => Decision.accepted)) }) ∧
    (∀ tp ∈ generateCleanParas r (fun _ => Decision.accepted),
      ∀ tr ∈ tp.truns, tr.mark = Mark.normal) ∧
    (∀ c ∈ r.clauses, ∀ s, c.suggestions.head? = some s →
      c.decision ≠ Decision.rejected → c.paras ≠ [] →
      artifactText (cleanClause Decision.accepted c) = s.text) := by
  refine ⟨?_, generateCleanParas_marks r _, ?_⟩
  · simp [generateClean, hst, han, hrl, DocState.atLeastRedlineReady]
  · intro c _ s hs hd hp
    exact cleanClause_accept_text c s hs hd hp

/-- Witness for C6 at the fixture redline-ready Document. -/
theorem c6_witness :
    generateClean docReadyW (fun _ => Decision.accepted)
        = Except.ok (generateCleanParas resW (fun _ => Decision.accepted),
            { docReadyW with state := DocState.cleanReady,
                             clean := some (generateCleanParas resW (fun _ => Decision.accepted)) }) ∧
    (∀ tp ∈ generateCleanParas resW (fun _ => Decision.accepted),
      ∀ tr ∈ tp.truns, tr.mark = Mark.normal) ∧
    (∀ c ∈ resW.clauses, ∀ s, c.suggestions.head? = some s →
      c.decision ≠ Decision.rejected → c.paras ≠ [] →
      artifactText (cleanClause Decision.accepted c) = s.text) :=
  c6_all_accept_clean docReadyW resW (generateRedlineParas resW) rfl rfl rfl

/-! ### Matcher ranking lemmas -/

/-- The ranking order is transitive. -/
theorem rankGE_trans (cfg : MatchConfig) (e : Embedding) :
    ∀ a b c, RankGE cfg e a b → RankGE cfg e b c → RankGE cfg e a c := by
  intro a b c hab hbc
  rcases hab with h1 | ⟨h1, h2⟩ <;> rcases hbc with h3 | ⟨h3, h4⟩
  · exact Or.inl (lt_trans h3 h1)
  · exact Or.inl (h3 ▸ h1)
  · exact Or.inl (h3.trans_eq h1.symm)
  · refine Or.inr ⟨h1.trans h3, ?_⟩
    rcases h2 with h2 | ⟨h2a, h2b⟩ <;> rcases h4 with h4 | ⟨h4a, h4b⟩
    · exact Or.inl (lt_trans h4 h2)
    · exact Or.inl (h4a ▸ h2)
    · exact Or.inl (h4.trans_eq h2a.symm)
    · exact Or.inr ⟨h2a.trans h4a, le_trans h4b h2b⟩

/-- The ranking order is total. -/
theorem rankGE_total (cfg : MatchConfig) (e : Embedding) :
    ∀ a b, RankGE cfg e a b ∨ RankGE cfg e b a := by
  intro a b
  rcases lt_trichotomy (score cfg e a) (score cfg e b) with h | h | h
  · exact Or.inr (Or.inl h)
  · rcases lt_trichotomy a.supportCount b.supportCount with h2 | h2 | h2
    · exact Or.inr (Or.inr ⟨h.symm, Or.inl h2⟩)
    · rcases le_total b.updatedAt a.updatedAt with h3 | h3
      · exact Or.inl (Or.inr ⟨h, Or.inr ⟨h2, h3⟩⟩)
      · exact Or.inr (Or.inr ⟨h.symm, Or.inr ⟨h2.symm, h3⟩⟩)
    · exact Or.inl (Or.inr ⟨h, Or.inl h2⟩)
  · exact Or.inl (Or.inl h)

/-- Boolean transitivity, in the form the sort requires. -/
theorem rankLE_trans (cfg : MatchConfig) (e : Embedding) :
    ∀ a b c, rankLE cfg e a b → rankLE cfg e b c → rankLE cfg e a c := by
  intro a b c h1 h2
  exact decide_eq_true
    (rankGE_trans cfg e a b c (of_decide_eq_true h1) (of_decide_eq_true h2))

/-- Boolean totality, in the form the sort requires. -/
theorem rankLE_total (cfg : MatchConfig) (e : Embedding) :
    ∀ a b, rankLE cfg e a b || rankLE cfg e b a := by
  intro a b
  rcases rankGE_total cfg e a b with h | h <;> simp [rankLE, h]

/-- C3: the matcher retains exactly the same-category patterns at or above
the similarity threshold, sorts them by the ranking order (score, then
support count, then recency), truncates to the top K, and yields zero
suggestions when no same-category pattern reaches the threshold. -/
theorem c3_matcher_exact_threshold_rank_truncate (cfg : MatchConfig)
    (lib : PatternLibrary) (cat : Category) (e : Embedding) :
    (∀ s ∈ matchSuggestions cfg lib cat e, ∃ p, p ∈ lib.patterns ∧
      p.category = cat ∧ cfg.simThreshold ≤ cfg.sim p.centroid e ∧
      s = sugOf cfg e p) ∧
    (∀ p : Pattern, p ∈ matchRanked cfg lib cat e ↔
      p ∈ lib.patterns ∧ p.category = cat ∧
      cfg.simThreshold ≤ cfg.sim p.centroid e) ∧
    (matchRanked cfg lib cat e).Pairwise (RankGE cfg e) ∧
    (matchSuggestions cfg lib cat e).length ≤ cfg.topK ∧
    matchSuggestions cfg lib cat e
        = ((matchRanked cfg lib cat e).take cfg.topK).map (sugOf cfg e) ∧
    ((∀ p ∈ lib.patterns, p.category = cat →
        cfg.sim p.centroid e < cfg.simThreshold) →
      matchSuggestions cfg lib cat e = []) := by
  have hmem : ∀ p : Pattern, p ∈ matchRanked cfg lib cat e ↔
      p ∈ lib.patterns ∧ p.category = cat ∧
      cfg.simThreshold ≤ cfg.sim p.centroid e := by
    intro p
    rw [matchRanked, List.mem_mergeSort, matchCandidates, List.mem_filter]
    simp [and_assoc]
  refine ⟨?_, hmem, ?_, ?_, rfl, ?_⟩
  · intro s hs
    rw [matchSuggestions, List.mem_map] at hs
    obtain ⟨p, hp, rfl⟩ := hs
    have hp2 := (hmem p).mp (List.take_subset _ _ hp)
    exact ⟨p, hp2.1, hp2.2.1, hp2.2.2, rfl⟩
  · have hs := List.sorted_mergeSort
      (fun a b c => rankLE_trans cfg e a b c)
      (fun a b => rankLE_total cfg e a b)
      (matchCandidates cfg lib cat e)
    rw [matchRanked]
    exact hs.imp (fun h => of_decide_eq_true h)
  · rw [matchSuggestions, List.length_map]
    exact (List.length_take_le _ _)
  · intro hnone
    have hcand : matchCandidates cfg lib cat e = [] := by
      rw [matchCandidates, List.filter_eq_nil_iff]
      intro p hp
      simp only [Bool.and_eq_true, beq_iff_eq, decide_eq_true_eq, not_and]
      intro hcat
      exact not_le.mpr (hnone p hp hcat)
    rw [matchSuggestions, matchRanked, hcand]
    simp

/-- Witness for C3: the fixture pattern qualifies and is retained, and the
suggestion list respects the K bound. -/
theorem c3_witness :
    patW ∈ matchRanked cfgW libW Category.duration [1] ∧
    (matchSuggestions cfgW libW Category.duration [1]).length ≤ cfgW.topK :=
  ⟨((c3_matcher_exact_threshold_rank_truncate cfgW libW Category.duration
      [1]).2.1 patW).mpr ⟨by decide, by decide, by decide⟩,
   (c3_matcher_exact_threshold_rank_truncate cfgW libW Category.duration
      [1]).2.2.2.1⟩

/-! ### Segmentation lemmas -/

/-- The clause groups tile the classified paragraph sequence. -/
theorem groupClauses_flatten (pcs : List ParaClass) :
    (groupClauses pcs).flatten = pcs := by
  induction pcs with
  | nil => rfl
  | cons pc rest ih =>
    simp only [groupClauses]
    cases hg : groupClauses rest with
    | nil =>
      rw [hg] at ih
      simp only [List.flatten_nil] at ih
      simp [← ih]
    | cons g gs =>
      rw [hg] at ih
      cases g with
      | nil =>
        simp only [List.flatten_cons, List.nil_append] at ih
        simp [← ih]
      | cons q g0 =>
        dsimp only
        by_cases hcond : pc.cat = q.cat ∧ pc.emb.isNone = q.emb.isNone
        · rw [if_pos hcond]
          simp only [List.flatten_cons] at ih ⊢
          rw [List.cons_append, ih]
        · rw [if_neg hcond]
          simp only [List.flatten_cons] at ih ⊢
          simp [ih]

/-- Every clause group is nonempty, and all its members share the category
and embedding degradedness of its first member. -/
theorem groupClauses_good :
    ∀ (pcs : List ParaClass) (g : List ParaClass), g ∈ groupClauses pcs →
      ∃ a t, g = a :: t ∧
        ∀ x ∈ g, x.cat = a.cat ∧ x.emb.isNone = a.emb.isNone := by
  intro pcs
  induction pcs with
  | nil => intro g hg; simp [groupClauses] at hg
  | cons pc rest ih =>
    intro g hg
    simp only [groupClauses] at hg
    cases hgrec : groupClauses rest with
    | nil =>
      rw [hgrec] at hg
      simp at hg
      subst hg
      exact ⟨pc, [], rfl, by simp⟩
    | cons g1 gs =>
      rw [hgrec] at hg
      cases g1 with
      | nil =>
        rcases List.mem_cons.mp hg with hfst | hrest
        · subst hfst
          exact ⟨pc, [], rfl, by simp⟩
        · exact ih g (hgrec ▸ List.mem_cons_of_mem _ hrest)
      | cons q g0 =>
        dsimp only at hg
        by_cases hcond : pc.cat = q.cat ∧ pc.emb.isNone = q.emb.isNone
        · rw [if_pos hcond] at hg
          rcases List.mem_cons.mp hg with hfst | hrest
          · subst hfst
            refine ⟨pc, q :: g0, rfl, ?_⟩
            intro x hx
            rcases List.mem_cons.mp hx with hx0 | hx1
            · subst hx0; exact ⟨rfl, rfl⟩
            · obtain ⟨a0, t0, hqg, hall⟩ :=
                ih (q :: g0) (hgrec ▸ List.mem_cons_self _ _)
              have ha0 : a0 = q := by
                have := hqg
                cases hqg
                rfl
              obtain ⟨hc1, hc2⟩ := hall x (ha0 ▸ hx1)
              exact ⟨by rw [hc1, ha0, ← hcond.1],
                     by rw [hc2, ha0, ← hcond.2]⟩
          · exact ih g (hgrec ▸ List.mem_cons_of_mem _ hrest)
        · rw [if_neg hcond] at hg
          rcases List.mem_cons.mp hg with hfst | hrest
          · subst hfst
            exact ⟨pc, [], rfl, by simp⟩
          · exact ih g (hgrec ▸ hrest)

/-- C8: when the embedding step fails on a paragraph, the analysis still
completes, and the clause covering that paragraph carries the degraded
classification: category `other` with risk `low`. -/
theorem c8_embedding_error_absorbed
    (extractF : ByteSeq → Except Err (List Paragraph)) (cc : ClassifierCfg)
    (cfg : MatchConfig) (lib : PatternLibrary) (ctx : Nat) (bytes : ByteSeq)
    (paras : List Paragraph) (i : Nat) (p : Paragraph) (err : Err)
    (hex : extractF bytes = Except.ok paras)
    (hget : paras[i]? = some p)
    (hemb : cc.embed p.text = Except.error err) :
    ∃ res, analyze extractF cc cfg lib ctx bytes = Except.ok res ∧
      ∃ c, c ∈ res.clauses ∧ degradedPC i p ∈ c.paras ∧
        c.category = Category.other ∧ c.risk = Risk.low := by
  set pcs := paras.enum.map (fun ip => classifyParagraph cc ip.1 ip.2) with hpcs
  have hres : analyze extractF cc cfg lib ctx bytes
      = Except.ok { clauses := (groupClauses pcs).map (clauseOfGroup cfg lib),
                    libVersion := lib.version } := by
    simp [analyze, hex, hpcs]
  have hpcget : pcs[i]? = some (degradedPC i p) := by
    rw [hpcs]
    simp [List.enum, List.getElem?_enumFrom, hget, classifyParagraph, hemb,
      degradedPC]
  have hpcmem : degradedPC i p ∈ pcs := List.getElem?_mem hpcget
  rw [← groupClauses_flatten pcs] at hpcmem
  obtain ⟨g, hgmem, hpcg⟩ := List.mem_flatten.mp hpcmem
  obtain ⟨a, t, hgat, hall⟩ := groupClauses_good pcs g hgmem
  obtain ⟨hcat, hdeg⟩ := hall _ hpcg
  simp only [degradedPC] at hcat hdeg
  have hacat : a.cat = Category.other := hcat.symm
  have haemb : a.emb = none := by
    have : a.emb.isNone = true := by rw [← hdeg]; rfl
    exact Option.isNone_iff_eq_none.mp this
  refine ⟨_, hres, clauseOfGroup cfg lib g, List.mem_map_of_mem _ hgmem, ?_, ?_, ?_⟩
  · simpa [clauseOfGroup] using hpcg
  · rw [hgat]
    simp [clauseOfGroup, hacat]
  · rw [hgat]
    simp [clauseOfGroup, haemb, assessRisk]

/-- Witness for C8: a one-paragraph document whose only paragraph cannot be
embedded by the fixture classifier. -/
theorem c8_witness :
    ∃ res, analyze (fun _ => Except.ok [pEmptyW]) ccW cfgW libW 0 []
        = Except.ok res ∧
      ∃ c, c ∈ res.clauses ∧ degradedPC 0 pEmptyW ∈ c.paras ∧
        c.category = Category.other ∧ c.risk = Risk.low :=
  c8_embedding_error_absorbed (fun _ => Except.ok [pEmptyW]) ccW cfgW libW 0 []
    [pEmptyW] 0 pEmptyW Err.embeddingError rfl rfl
    (by simp [ccW, pEmptyW, Paragraph.text, strJoin_nil])

/-! ### Redline frame lemmas -/

/-- The classification of a paragraph keeps its stable index. -/
theorem classifyParagraph_idx (cc : ClassifierCfg) (i : Nat) (p : Paragraph) :
    (classifyParagraph cc i p).idx = i := by
  rw [classifyParagraph]
  cases cc.embed p.text <;> rfl

/-- The classification of a paragraph keeps the paragraph. -/
theorem classifyParagraph_para (cc : ClassifierCfg) (i : Nat) (p : Paragraph) :
    (classifyParagraph cc i p).para = p := by
  rw [classifyParagraph]
  cases cc.embed p.text <;> rfl

/-- The redline block of a clause has exactly one generated paragraph per
source paragraph. -/
theorem redlineClause_length (c : AClause) :
    (redlineClause c).length = c.paras.length := by
  cases he : c.edited with
  | false => simp [redlineClause, he]
  | true =>
    cases hs : c.suggestions.head? with
    | none => simp [redlineClause, he, hs]
    | some s =>
      cases hp : c.paras with
      | nil => simp [redlineClause, he, hs, hp]
      | cons pc0 rest => simp [redlineClause, he, hs, hp]

/-- A clause that is not edited is reproduced without markup. -/
theorem redlineClause_unedited (c : AClause) (h : c.edited = false) :
    redlineClause c = c.paras.map (fun pc => plainPara pc.para) := by
  simp [redlineClause, h]

/-- Positional correspondence through a length-preserving block map: the
element at a flat position lands in some block, and the mapped flat sequence
holds the image block at the same position. -/
theorem flatten_blocks_getElem {A B : Type} (F : List A → List B)
    (hlen : ∀ g, (F g).length = g.length) :
    ∀ (gs : List (List A)) (i : Nat) (x : A),
      gs.flatten[i]? = some x →
      ∃ (g : List A) (j : Nat), g ∈ gs ∧ g[j]? = some x ∧
        ((gs.map F).flatten)[i]? = (F g)[j]? := by
  intro gs
  induction gs with
  | nil => intro i x h; simp at h
  | cons g gs ih =>
    intro i x h
    rw [List.flatten_cons] at h
    by_cases hi : i < g.length
    · have hg : g[i]? = some x := by
        rwa [List.getElem?_append_left hi] at h
      refine ⟨g, i, List.mem_cons_self g gs, hg, ?_⟩
      rw [List.map_cons, List.flatten_cons,
        List.getElem?_append_left (by rw [hlen g]; exact hi)]
    · push_neg at hi
      rw [List.getElem?_append_right hi] at h
      obtain ⟨g2, j, hg2, hj, heq⟩ := ih (i - g.length) x h
      refine ⟨g2, j, List.mem_cons_of_mem g hg2, hj, ?_⟩
      rw [List.map_cons, List.flatten_cons,
        List.getElem?_append_right (by rw [hlen g]; exact hi), hlen g]
      exact heq

/-- C1: every paragraph not covered by a clause carrying a pending or
accepted suggestion is reproduced in the redline artifact, at its own
position, byte-identical including its formatting runs and free of any
tracked-change markup. -/
theorem c1_redline_frame
    (extractF : ByteSeq → Except Err (List Paragraph)) (cc : ClassifierCfg)
    (cfg : MatchConfig) (lib : PatternLibrary) (ctx : Nat) (bytes : ByteSeq)
    (paras : List Paragraph) (r : AnalysisResult) (i : Nat) (p : Paragraph)
    (hex : extractF bytes = Except.ok paras)
    (han : analyze extractF cc cfg lib ctx bytes = Except.ok r)
    (hget : paras[i]? = some p)
    (huncov : ∀ c ∈ r.clauses, c.edited = true → ∀ pc ∈ c.paras, pc.idx ≠ i) :
    (generateRedlineParas r)[i]? = some (plainPara p) := by
  set pcs := paras.enum.map (fun ip => classifyParagraph cc ip.1 ip.2) with hpcs
  have han2 : analyze extractF cc cfg lib ctx bytes
      = Except.ok { clauses := (groupClauses pcs).map (clauseOfGroup cfg lib),
                    libVersion := lib.version } := by
    simp [analyze, hex, hpcs]
  have hr : r = { clauses := (groupClauses pcs).map (clauseOfGroup cfg lib),
                  libVersion := lib.version } :=
    Except.ok.inj (han.symm.trans han2)
  subst hr
  have hpcget : pcs[i]? = some (classifyParagraph cc i p) := by
    rw [hpcs]
    simp [List.enum, List.getElem?_enumFrom, hget]
  have hget2 : (groupClauses pcs).flatten[i]? = some (classifyParagraph cc i p) := by
    rw [groupClauses_flatten]
    exact hpcget
  obtain ⟨g, j, hgmem, hgj, heq⟩ :=
    flatten_blocks_getElem (fun g => redlineClause (clauseOfGroup cfg lib g))
      (fun g => (redlineClause_length _).trans rfl)
      (groupClauses pcs) i _ hget2
  have hcmem : clauseOfGroup cfg lib g
      ∈ (groupClauses pcs).map (clauseOfGroup cfg lib) :=
    List.mem_map_of_mem _ hgmem
  have hpcing : classifyParagraph cc i p ∈ g := List.getElem?_mem hgj
  have hedit : (clauseOfGroup cfg lib g).edited = false := by
    cases hed : (clauseOfGroup cfg lib g).edited with
    | false => rfl
    | true =>
      exact absurd (classifyParagraph_idx cc i p)
        (huncov _ hcmem hed _ hpcing)
  have hFg : redlineClause (clauseOfGroup cfg lib g)
      = g.map (fun pc => plainPara pc.para) :=
    redlineClause_unedited _ hedit
  have hgoal : (generateRedlineParas
      { clauses := (groupClauses pcs).map (clauseOfGroup cfg lib),
        libVersion := lib.version })[i]?
      = (redlineClause (clauseOfGroup cfg lib g))[j]? := by
    rw [generateRedlineParas]
    simp only [List.map_map]
    exact heq
  rw [hgoal, hFg, List.getElem?_map, hgj]
  simp [classifyParagraph_para]

unseal List.mergeSort List.merge in
/-- Witness for C1: in the fixture two-paragraph document the duration
clause is edited while the signature paragraph is untouched, and the redline
artifact reproduces the signature paragraph at its own position. -/
theorem c1_witness :
    (generateRedlineParas resW2)[1]? = some (plainPara paraW2) :=
  c1_redline_frame (fun _ => Except.ok [paraW, paraW2]) ccW2 cfgW libW 0 []
    [paraW, paraW2] resW2 1 paraW2 rfl rfl rfl (by decide)

/-! ### Training pipeline lemmas -/

/-- Moving a centroid that averages a sum of weight n towards a new
embedding by the running weighted average yields the average of the enlarged
sum. -/
theorem runningAvg_vdiv (n : Nat) (hn : 0 < n) (s e : List ℚ) :
    runningAvg (vdiv s n) n e = vdiv (vsum s e) (n + 1) := by
  have hq : (n : ℚ) ≠ 0 := Nat.cast_ne_zero.mpr hn.ne'
  induction s generalizing e with
  | nil => cases e <;> simp [runningAvg, vdiv, vsum]
  | cons a s ih =>
    cases e with
    | nil => simp [runningAvg, vdiv, vsum]
    | cons b e =>
      have hhead : (a / (n : ℚ) * (n : ℚ) + b) / ((n : ℚ) + 1)
          = (a + b) / (((n : ℚ)) + 1) := by
        rw [div_mul_cancel₀ _ hq]
      have htail := ih e
      simp only [runningAvg, vdiv, vsum, List.map_cons, List.zipWith_cons_cons] at htail ⊢
      rw [htail, hhead]
      push_cast
      ring_nf

/-- Tracing a reinforcement history: a pattern whose centroid is the average
of a sum of weight equal to its support count keeps that shape across any
sequence of reinforcements. -/
theorem reinforceAll_trace (now : Nat) :
    ∀ (es : List Embedding) (p : Pattern) (s : Embedding),
      0 < p.supportCount → p.centroid = vdiv s p.supportCount →
      (reinforceAll p es now).supportCount = p.supportCount + es.length ∧
      (reinforceAll p es now).centroid
        = vdiv (es.foldl vsum s) (p.supportCount + es.length) := by
  intro es
  induction es with
  | nil =>
    intro p s hpos hc
    simpa [reinforceAll] using hc
  | cons e es ih =>
    intro p s hpos hc
    have hstep : (reinforce p e now).centroid = vdiv (vsum s e) (p.supportCount + 1) := by
      simp [reinforce, hc, runningAvg_vdiv p.supportCount hpos s e]
    have hsup : (reinforce p e now).supportCount = p.supportCount + 1 := rfl
    have hrec := ih (reinforce p e now) (vsum s e)
      (by simp [reinforce]) (by rw [hstep, hsup])
    rw [hsup] at hrec
    have hfold : reinforceAll p (e :: es) now
        = reinforceAll (reinforce p e now) es now := rfl
    refine ⟨?_, ?_⟩
    · rw [hfold, hrec.1, List.length_cons]
      omega
    · rw [hfold, hrec.2, List.length_cons]
      have : p.supportCount + 1 + es.length = p.supportCount + (es.length + 1) := by
        omega
      rw [this]
      rfl

/-- Ingesting one training example never removes a pattern and never lowers
a support count. -/
theorem ingestExample_mono (tc : TrainCfg) (now : Nat) (lib : PatternLibrary)
    (ex : TrainingExample) (p : Pattern) (hp : p ∈ lib.patterns) :
    ∃ q, q ∈ (ingestExample tc now lib ex).patterns ∧
      q.pid = p.pid ∧ p.supportCount ≤ q.supportCount := by
  cases h : mergeCandidate tc lib ex with
  | some q =>
    refine ⟨if p.pid = q.pid then reinforce p ex.emb now else p, ?_, ?_, ?_⟩
    · simp only [ingestExample, h]
      exact List.mem_map_of_mem _ hp
    · by_cases hpq : p.pid = q.pid <;> simp [reinforce, hpq]
    · by_cases hpq : p.pid = q.pid <;> simp [reinforce, hpq]
  | none =>
    refine ⟨p, ?_, rfl, le_refl _⟩
    simp [ingestExample, h, hp]

/-- Batch version of `ingestExample_mono`. -/
theorem ingestBatch_mono (tc : TrainCfg) (now : Nat) :
    ∀ (exs : List TrainingExample) (lib : PatternLibrary) (p : Pattern),
      p ∈ lib.patterns →
      ∃ q, q ∈ (ingestBatch tc now lib exs).patterns ∧
        q.pid = p.pid ∧ p.supportCount ≤ q.supportCount := by
  intro exs
  induction exs with
  | nil => intro lib p hp; exact ⟨p, hp, rfl, le_refl _⟩
  | cons ex exs ih =>
    intro lib p hp
    obtain ⟨q, hq, hqpid, hqle⟩ := ingestExample_mono tc now lib ex p hp
    obtain ⟨r, hr, hrpid, hrle⟩ := ih (ingestExample tc now lib ex) q hq
    refine ⟨r, ?_, by rw [hrpid, hqpid], le_trans hqle hrle⟩
    simpa [ingestBatch] using hr

/-- C4: across any sequence of training ingestions every pattern survives
with a support count that never decreases, and a pattern born from one
example and reinforced N - 1 further times has support count N and centroid
equal to the average (the running weighted average) of the N contributing
example embeddings. -/
theorem c4_support_monotone_and_centroid_average :
    (∀ (tc : TrainCfg) (now : Nat) (lib : PatternLibrary)
        (exs : List TrainingExample) (p : Pattern), p ∈ lib.patterns →
      ∃ q, q ∈ (ingestBatch tc now lib exs).patterns ∧
        q.pid = p.pid ∧ p.supportCount ≤ q.supportCount) ∧
    (∀ (newId t0 now : Nat) (ex : TrainingExample) (es : List Embedding),
      (reinforceAll (freshPattern newId ex t0) es now).supportCount
          = 1 + es.length ∧
      (reinforceAll (freshPattern newId ex t0) es now).centroid
          = vdiv (es.foldl vsum ex.emb) (1 + es.length)) := by
  constructor
  · intro tc now lib exs p hp
    exact ingestBatch_mono tc now exs lib p hp
  · intro newId t0 now ex es
    have hbase : (freshPattern newId ex t0).centroid
        = vdiv ex.emb (freshPattern newId ex t0).supportCount := by
      simp [freshPattern, vdiv]
    exact reinforceAll_trace now es (freshPattern newId ex t0) ex.emb
      (by simp [freshPattern]) hbase

/-- Witness for C4 at the fixture library and two concrete reinforcements. -/
theorem c4_witness :
    (∃ q, q ∈ (ingestBatch tcW 3 libW [exW]).patterns ∧
        q.pid = patW.pid ∧ patW.supportCount ≤ q.supportCount) ∧
    ((reinforceAll (freshPattern 9 exW 0) [[5], [7]] 1).supportCount = 1 + 2 ∧
      (reinforceAll (freshPattern 9 exW 0) [[5], [7]] 1).centroid
        = vdiv (([[5], [7]] : List Embedding).foldl vsum exW.emb) (1 + 2)) :=
  ⟨c4_support_monotone_and_centroid_average.1 tcW 3 libW [exW] patW (by decide),
   c4_support_monotone_and_centroid_average.2 9 0 1 exW [[5], [7]]⟩

/-- C7: ingesting a training example reinforces the first same-category
pattern whose centroid similarity reaches the merge threshold — updating its
centroid to the running weighted average and incrementing its support count,
creating nothing and keeping every other pattern — and when no pattern
qualifies it appends a fresh pattern with support count 1. -/
theorem c7_merge_or_create (tc : TrainCfg) (now : Nat) (lib : PatternLibrary)
    (ex : TrainingExample) :
    (∀ q, mergeCandidate tc lib ex = some q →
      q ∈ lib.patterns ∧ q.category = ex.category ∧
      tc.mergeThreshold ≤ tc.sim q.centroid ex.emb ∧
      (ingestExample tc now lib ex).patterns.length = lib.patterns.length ∧
      reinforce q ex.emb now ∈ (ingestExample tc now lib ex).patterns ∧
      (reinforce q ex.emb now).supportCount = q.supportCount + 1 ∧
      (reinforce q ex.emb now).centroid
          = runningAvg q.centroid q.supportCount ex.emb ∧
      (∀ p ∈ lib.patterns, p.pid ≠ q.pid →
        p ∈ (ingestExample tc now lib ex).patterns)) ∧
    (mergeCandidate tc lib ex = none →
      (∀ p ∈ lib.patterns,
        ¬(p.category = ex.category ∧
          tc.mergeThreshold ≤ tc.sim p.centroid ex.emb)) ∧
      (ingestExample tc now lib ex).patterns
          = lib.patterns ++ [freshPattern lib.nextId ex now] ∧
      (freshPattern lib.nextId ex now).supportCount = 1 ∧
      (freshPattern lib.nextId ex now).centroid = ex.emb) := by
  constructor
  · intro q hq
    have hmem : q ∈ lib.patterns := List.mem_of_find?_eq_some hq
    have hpred := List.find?_some hq
    simp only [Bool.and_eq_true, beq_iff_eq, decide_eq_true_eq] at hpred
    refine ⟨hmem, hpred.1, hpred.2, ?_, ?_, rfl, rfl, ?_⟩
    · simp [ingestExample, hq]
    · have := List.mem_map_of_mem
        (fun p => if p.pid = q.pid then reinforce p ex.emb now else p) hmem
      simp only [if_pos rfl] at this
      simpa [ingestExample, hq] using this
    · intro p hp hne
      have := List.mem_map_of_mem
        (fun r => if r.pid = q.pid then reinforce r ex.emb now else r) hp
      simp only [if_neg hne] at this
      simpa [ingestExample, hq] using this
  · intro hnone
    refine ⟨?_, ?_, rfl, rfl⟩
    · intro p hp hcontra
      have := List.find?_eq_none.mp hnone p hp
      simp only [Bool.and_eq_true, beq_iff_eq, decide_eq_true_eq] at this
      exact this ⟨hcontra.1, hcontra.2⟩
    · simp [ingestExample, hnone]

/-- Witness for C7 at the fixture library, where the fixture pattern reaches
the merge threshold. -/
theorem c7_witness :
    patW ∈ libW.patterns ∧ patW.category = exW.category ∧
    tcW.mergeThreshold ≤ tcW.sim patW.centroid exW.emb ∧
    (ingestExample tcW 3 libW exW).patterns.length = libW.patterns.length ∧
    reinforce patW exW.emb 3 ∈ (ingestExample tcW 3 libW exW).patterns ∧
    (reinforce patW exW.emb 3).supportCount = patW.supportCount + 1 ∧
    (reinforce patW exW.emb 3).centroid
        = runningAvg patW.centroid patW.supportCount exW.emb ∧
    (∀ p ∈ libW.patterns, p.pid ≠ patW.pid →
      p ∈ (ingestExample tcW 3 libW exW).patterns) :=
  (c7_merge_or_create tcW 3 libW exW).1 patW (by decide)

/-! ### Training alignment lemmas -/

/-- When the corrected side is a permutation of the original side, the exact
matching pass pairs every original paragraph with an identical corrected
paragraph and leaves no leftovers. -/
theorem matchExact_perm :
    ∀ (os cs : List String), os.Perm cs →
      matchExact os cs = (os.map (fun o => (o, o)), [], []) := by
  intro os
  induction os with
  | nil =>
    intro cs h
    have := h.symm.eq_nil
    subst this
    simp [matchExact]
  | cons o os ih =>
    intro cs h
    have ho : o ∈ cs := h.subset (List.mem_cons_self o os)
    have hrest : os.Perm (cs.erase o) :=
      (List.cons_perm_iff_perm_erase.mp h).2
    simp [matchExact, ho, ih _ hrest]

/-- C9: a training pair whose corrected document is a reordering of the
original with no paragraph text changed yields zero TrainingExamples, so no
pattern is created or reinforced. -/
theorem c9_reordering_yields_no_examples (cc : ClassifierCfg)
    (tsim : String → String → ℚ) (thr : ℚ) (tc : TrainCfg) (now : Nat)
    (lib : PatternLibrary) (os cs : List String) (h : os.Perm cs) :
    extractExamples cc tsim thr os cs = [] ∧
    ingestBatch tc now lib (extractExamples cc tsim thr os cs) = lib := by
  have hal : alignPair tsim thr os cs = os.map (fun o => (o, o)) := by
    simp [alignPair, matchExact_perm os cs h, alignSimilar]
  have hex : extractExamples cc tsim thr os cs = [] := by
    simp [extractExamples, hal, List.filterMap_map, Function.comp]
  exact ⟨hex, by simp [hex, ingestBatch]⟩

/-- Witness for C9 on a two-paragraph reordering. -/
theorem c9_witness :
    extractExamples ccW (fun _ _ => 0) (1 / 2) ["A", "B"] ["B", "A"] = [] ∧
    ingestBatch tcW 0 libW
      (extractExamples ccW (fun _ _ => 0) (1 / 2) ["A", "B"] ["B", "A"]) = libW :=
  c9_reordering_yields_no_examples ccW (fun _ _ => 0) (1 / 2) tcW 0 libW
    ["A", "B"] ["B", "A"] (by decide)

end NDAV
